import Mathlib

/-!
Verification of the metadata-resolution and descriptor-synthesis core of
cargo-aur. The binary crate is `src/main.rs` with module `src/config.rs`;
`src/lib.rs` is an older library crate kept in the repository whose types
diverge from `config.rs` (different GitHost variant set, different
dependency formatting, a legacy dependency location). Both are embedded
here, namespaced `Config` and `Lib`; fragments of `main.rs` live in
namespace `Main`.

Machine-level details that the claims do not touch are modelled explicitly:
the `CARGO_AUR_ARCHIVE` environment variable is an `Option String`
parameter, a directory listing is a list of entries whose names are
`Option String` (`none` for a name that is not valid UTF-8).
-/

/-- Rust `str::starts_with`, on the character sequence of the string. -/
def str_starts_with (s pre : String) : Bool :=
  pre.data.isPrefixOf s.data

/-- The double-quote character (written via its code point). -/
def dquote : Char := Char.ofNat 34

namespace Config

/-- `config.rs` `LICENSES`: the 14 licenses assumed provided by the Arch
`licenses` package (the 12th entry reads "LGBL", as in the source). -/
def LICENSES : List String := [
  "AGPL-3.0-only",
  "AGPL-3.0-or-later",
  "Apache-2.0",
  "BSL-1.0",
  "GPL-2.0-only",
  "GPL-2.0-or-later",
  "GPL-3.0-only",
  "GPL-3.0-or-later",
  "LGPL-2.0-only",
  "LGPL-2.0-or-later",
  "LGPL-3.0-only",
  "LGBL-3.0-or-later",
  "MPL-2.0",
  "Unlicense"
]

/-- `config.rs` `Aur`: the values of a `[package.metadata.aur]` block. -/
structure Aur where
  archive : Option String
  name : Option String
  depends : List String
  optdepends : List String
deriving DecidableEq

/-- `config.rs` `Default for Aur`. -/
def Aur.default : Aur := ⟨none, none, [], []⟩

/-- `config.rs` `Metadata`: the `[package.metadata]` block. -/
structure Metadata where
  aur : Aur
deriving DecidableEq

/-- `config.rs` `Package`: fields are name, version, authors, description,
homepage, repository, license, metadata. -/
structure Package where
  name : String
  version : String
  authors : List String
  description : String
  homepage : String
  repository : String
  license : String
  metadata : Metadata
deriving DecidableEq

/-- `config.rs` `Binary`: a `[[bin]]` entry. -/
structure Binary where
  name : String
deriving DecidableEq

/-- `config.rs` `Config`: the parsed `Cargo.toml`. -/
structure Config where
  package : Package
  bin : List Binary
deriving DecidableEq

/-- `config.rs` `Config::binary_name`. -/
def Config.binary_name (c : Config) : String :=
  ((c.bin.head?).map (fun b => b.name)).getD c.package.name

/-- `config.rs` `GitHost`: two variants only. -/
inductive GitHost
  | Github
  | Gitlab
deriving DecidableEq

/-- `config.rs` `Package::git_host`: one test, `https://gitlab` first,
everything else is `Github`. -/
def Package.git_host (p : Package) : GitHost :=
  if str_starts_with p.repository "https://gitlab" then GitHost.Gitlab
  else GitHost.Github

/-- `config.rs` `GitHost::source`. The read of the `CARGO_AUR_ARCHIVE`
environment variable is the explicit `env_archive` parameter; when set it
is returned before the host is even inspected. -/
def GitHost.source (host : GitHost) (env_archive : Option String)
    (package : Package) : String :=
  match env_archive with
  | some path => path
  | none =>
    match host with
    | GitHost.Github =>
        package.repository ++ "/releases/download/v$pkgver/" ++ package.name
          ++ "-$pkgver-x86_64.tar.gz"
    | GitHost.Gitlab =>
        package.repository ++ "/-/archive/v$pkgver/" ++ package.name
          ++ "-$pkgver-x86_64.tar.gz"

/-- The run of quoted items written by `config.rs` `Display for Aur`: the
loop writes every `middle` item as `"item"` and the `last` item the same
way, with no separator between items, so the run is the plain
concatenation of the quoted items. -/
def quotedRun : List String → String
  | [] => ""
  | [last] => "\"" ++ last ++ "\""
  | item :: rest => "\"" ++ item ++ "\"" ++ quotedRun rest

/-- `config.rs` `Display for Aur`: for a non-empty `depends` write
`depends=(` and the quoted run, then a newline exactly when `optdepends`
is non-empty; for a non-empty `optdepends` write `optdepends=(` and its
quoted run. Nothing is written for an empty list. (As in the source,
no closing parenthesis and no space between items.) -/
def Aur.display (a : Aur) : String :=
  (match a.depends with
   | [] => ""
   | _ :: _ =>
       "depends=(" ++ quotedRun a.depends
         ++ (if a.optdepends.isEmpty then "" else "\n"))
  ++
  (match a.optdepends with
   | [] => ""
   | _ :: _ => "optdepends=(" ++ quotedRun a.optdepends)

/-- `config.rs` `Package::tarball` file name (the join with the output
directory is dropped; only the name matters to the spec). -/
def Package.tarball_name (p : Package) : String :=
  p.name ++ "-" ++ p.version ++ "-x86_64.tar.gz"

end Config

namespace Lib

/-- `lib.rs` `GitHost`: three variants. -/
inductive GitHost
  | Github
  | Gitlab
  | Generic
deriving DecidableEq

/-- `lib.rs` `AUR`: the inner values of a `[package.metadata.aur]` block. -/
structure AUR where
  depends : List String
  optdepends : List String
deriving DecidableEq

/-- `lib.rs` `Metadata`: deprecated top-level dependency lists plus the
optional `aur` block. -/
structure Metadata where
  depends : List String
  optdepends : List String
  aur : Option AUR
deriving DecidableEq

/-- `lib.rs` `Package`. -/
structure Package where
  name : String
  version : String
  authors : List String
  description : String
  homepage : String
  repository : String
  license : String
  metadata : Option Metadata
deriving DecidableEq

/-- `lib.rs` `Package::git_host`: `https://github` first, then
`https://gitlab`, else `Generic`. -/
def Package.git_host (p : Package) : GitHost :=
  if str_starts_with p.repository "https://github" then GitHost.Github
  else if str_starts_with p.repository "https://gitlab" then GitHost.Gitlab
  else GitHost.Generic

/-- `lib.rs` `GitHost::source`, with the environment read as an explicit
parameter as in `Config.GitHost.source`. -/
def GitHost.source (host : GitHost) (env_archive : Option String)
    (package : Package) : String :=
  match env_archive with
  | some path => path
  | none =>
    match host with
    | GitHost.Github =>
        package.repository ++ "/archive/refs/tags/v$pkgver.tar.gz"
    | GitHost.Gitlab =>
        package.repository ++ "/-/archive/v$pkgver/" ++ package.name
          ++ "-$pkgver.tar.gz"
    | GitHost.Generic =>
        package.repository ++ "/archive/v$pkgver.tar.gz"

/-- The reconciliation at the top of `lib.rs` `Display for Metadata`:
read the dependency lists from the `aur` block when it exists, otherwise
from the deprecated top-level location. -/
def Metadata.resolved (m : Metadata) : List String × List String :=
  match m.aur with
  | some aur => (aur.depends, aur.optdepends)
  | none => (m.depends, m.optdepends)

/-- The quoted list written by `lib.rs` `Display for Metadata`: every
`middle` item as `"item"` followed by a space, the `last` item as
`"item")` closing the array. -/
def quotedList : List String → String
  | [] => ""
  | [last] => "\"" ++ last ++ "\")"
  | item :: rest => "\"" ++ item ++ "\" " ++ quotedList rest

/-- `lib.rs` `Display for Metadata`: the reconciled lists are rendered as
`depends=(...)` and `optdepends=(...)`; the `depends` line ends in a
newline exactly when `optdepends` is non-empty; an empty list produces no
line. -/
def Metadata.display (m : Metadata) : String :=
  (match m.resolved.1 with
   | [] => ""
   | _ :: _ =>
       "depends=(" ++ quotedList m.resolved.1
         ++ (if m.resolved.2.isEmpty then "" else "\n"))
  ++
  (match m.resolved.2 with
   | [] => ""
   | _ :: _ => "optdepends=(" ++ quotedList m.resolved.2)

end Lib

namespace Main

/-- Modelled from the spec: `src/error.rs` is not among the repository's
staged sources; section 7 lists the error kinds (manifest read, manifest
parse, missing license file, missing toolchain target, invalid text
encoding, generic I/O). Only the variants named by `src/main.rs` are
distinguished here. -/
inductive Error
  | MissingLicense
  | MissingMuslTarget
  | Utf8OsString
  | Io
deriving DecidableEq

/-- `main.rs` `must_copy_license`: true when the license is not in the
`LICENSES` allow-list. -/
def must_copy_license (license : String) : Bool :=
  !(Config.LICENSES.contains license)

/-- A directory entry of the project root, as `license_file` sees it:
`file_name` is the result of `to_str`, `none` when the name is not valid
UTF-8. -/
structure DirEntry where
  file_name : Option String
deriving DecidableEq

/-- The predicate of `main.rs` `license_file`:
`entry.file_name().to_str().map(starts_with "LICENSE").unwrap_or(false)`. -/
def license_matches (entry : DirEntry) : Bool :=
  ((entry.file_name).map (fun s => str_starts_with s "LICENSE")).getD false

/-- `main.rs` `license_file`: the first entry of the directory whose name
starts with `LICENSE`, or the `MissingLicense` error. -/
def license_file (entries : List DirEntry) : Except Error DirEntry :=
  match entries.find? license_matches with
  | some entry => Except.ok entry
  | none => Except.error Error.MissingLicense

/-- The license step of `main.rs` `work`: when `must_copy_license` holds,
look the file up (propagating its error); otherwise no lookup happens and
the result is `none`. -/
def license_resolution (license : String) (entries : List DirEntry) :
    Except Error (Option DirEntry) :=
  if must_copy_license license then (license_file entries).map some
  else Except.ok none

/-- The `source` binding of `main.rs` `pkgbuild`: the manifest's
`metadata.aur.archive` when declared, otherwise
`package.git_host().source(...)` (which itself honours the
`CARGO_AUR_ARCHIVE` environment value, passed here explicitly). -/
def effective_source (env_archive : Option String) (config : Config.Config) :
    String :=
  (config.package.metadata.aur.archive).getD
    ((config.package.git_host).source env_archive config.package)

/-- The `package_name` binding of `main.rs` `pkgbuild`. -/
def package_name (config : Config.Config) : String :=
  (config.package.metadata.aur.name).getD (config.package.name ++ "-bin")

/-- Modelled from the spec: the "simple quoted-token extraction" of the
round-trip property in section 8. A double quote opens a token, the next
double quote closes it; characters outside quotes are discarded, as is an
unterminated trailing token. -/
def scanQuoted : List Char → Option (List Char) → List String
  | [], _ => []
  | c :: rest, none =>
      if c = dquote then scanQuoted rest (some []) else scanQuoted rest none
  | c :: rest, some acc =>
      if c = dquote then String.mk acc.reverse :: scanQuoted rest none
      else scanQuoted rest (some (c :: acc))

/-- Extraction of the double-quoted tokens of a string, in order. -/
def extractQuoted (s : String) : List String :=
  scanQuoted s.data none

end Main

/-- The example package of the spec (section 8): name `foo`, version
`1.2.3`, repository `https://github.com/u/foo`, license `MIT`, no
override block (so the default `Aur`). -/
def fooPkg : Config.Package :=
  ⟨"foo", "1.2.3", [], "", "", "https://github.com/u/foo", "MIT",
    ⟨Config.Aur.default⟩⟩

/-- A package whose repository has neither forge prefix. -/
def genericPkg : Config.Package :=
  ⟨"proj", "0.1.0", [], "", "", "https://example.com/u/proj", "MIT",
    ⟨Config.Aur.default⟩⟩

/-- A `lib.rs` package with the same neither-prefix repository. -/
def genericLibPkg : Lib.Package :=
  ⟨"proj", "0.1.0", [], "", "", "https://example.com/u/proj", "MIT", none⟩

/-- A manifest that declares an explicit `metadata.aur.archive`. -/
def cfgWithArchive : Config.Config :=
  ⟨⟨"proj", "0.1.0", [], "", "", "https://github.com/u/proj", "MIT",
    ⟨⟨some "local-archive.tar.gz", none, [], []⟩⟩⟩, []⟩

/-- A manifest with no explicit archive and no explicit name. -/
def cfgPlain : Config.Config :=
  ⟨fooPkg, []⟩

/-- `Config.Package` with the version replaced (record update, spelled as
a constructor to keep every field explicit). -/
def set_version (p : Config.Package) (v : String) : Config.Package :=
  ⟨p.name, v, p.authors, p.description, p.homepage, p.repository,
    p.license, p.metadata⟩

/-- A package hosted on gitlab. -/
def gitlabPkg : Config.Package :=
  ⟨"proj", "0.1.0", [], "", "", "https://gitlab.com/u/proj", "MIT",
    ⟨Config.Aur.default⟩⟩

/-! ### Helper lemmas -/

/-- A string that begins with `https://github` does not begin with
`https://gitlab`: two different lists of equal length cannot both be a
beginning of the same character sequence. -/
theorem github_gitlab_exclusive (s : String)
    (h : str_starts_with s "https://github" = true) :
    str_starts_with s "https://gitlab" = false := by
  rw [str_starts_with] at h ⊢
  cases hval : List.isPrefixOf ("https://gitlab".data) s.data with
  | false => rfl
  | true =>
    rw [ List.isPrefixOf_iff_prefix] at h hval
    rcases List.prefix_or_prefix_of_prefix h hval with hpq | hqp
    · exact absurd (hpq.eq_of_length (by decide)) (by decide)
    · exact absurd (hqp.eq_of_length (by decide)) (by decide)

/-- Outside a token, a character other than the double quote is skipped. -/
theorem scanQuoted_step_outside (c : Char) (hc : c ≠ dquote)
    (rest : List Char) :
    Main.scanQuoted (c :: rest) none = Main.scanQuoted rest none := by
  simp [Main.scanQuoted, hc]

/-- Opening a token at a double quote. -/
theorem scanQuoted_open (rest : List Char) :
    Main.scanQuoted (dquote :: rest) none
      = Main.scanQuoted rest (some []) := by
  simp [Main.scanQuoted]

/-- Inside a token, a character other than the double quote accumulates. -/
theorem scanQuoted_step_inside (c : Char) (hc : c ≠ dquote)
    (rest acc : List Char) :
    Main.scanQuoted (c :: rest) (some acc)
      = Main.scanQuoted rest (some (c :: acc)) := by
  simp [Main.scanQuoted, hc]

/-- Closing a token at a double quote emits the accumulated characters. -/
theorem scanQuoted_close (rest acc : List Char) :
    Main.scanQuoted (dquote :: rest) (some acc)
      = String.mk acc.reverse :: Main.scanQuoted rest none := by
  simp [Main.scanQuoted]

/-- Characters outside double quotes are discarded by the token scan. -/
theorem scanQuoted_skip (pre : List Char) (h : ∀ c ∈ pre, c ≠ dquote) :
    ∀ rest : List Char,
      Main.scanQuoted (pre ++ rest) none = Main.scanQuoted rest none := by
  induction pre with
  | nil => intro rest; rfl
  | cons c cs ih =>
    intro rest
    have hc : c ≠ dquote := h c (List.mem_cons_self c cs)
    rw [List.cons_append, scanQuoted_step_outside c hc]
    exact ih (fun x hx => h x (List.mem_cons_of_mem c hx)) rest

/-- Scanning a quote-free token up to its closing quote emits that token
(appended to whatever was already accumulated). -/
theorem scanQuoted_token (tok : List Char) (h : ∀ c ∈ tok, c ≠ dquote) :
    ∀ (acc rest : List Char),
      Main.scanQuoted (tok ++ dquote :: rest) (some acc)
        = String.mk (acc.reverse ++ tok) :: Main.scanQuoted rest none := by
  induction tok with
  | nil =>
    intro acc rest
    rw [List.nil_append, scanQuoted_close]
    simp
  | cons c cs ih =>
    intro acc rest
    have hc : c ≠ dquote := h c (List.mem_cons_self c cs)
    rw [List.cons_append, scanQuoted_step_inside c hc,
      ih (fun x hx => h x (List.mem_cons_of_mem c hx)) (c :: acc) rest]
    simp

/-- `Config.quotedRun` formats every item the same way, so it unfolds
uniformly over a cons. -/
theorem quotedRun_cons (i : String) (rest : List String) :
    Config.quotedRun (i :: rest)
      = "\"" ++ i ++ "\"" ++ Config.quotedRun rest := by
  cases rest with
  | nil => simp [Config.quotedRun]
  | cons j js => rfl

/-- The quoted run of quote-free items scans back to exactly those items. -/
theorem scanQuoted_quotedRun :
    ∀ (items : List String), (∀ s ∈ items, dquote ∉ s.data) →
    ∀ rest : List Char,
      Main.scanQuoted ((Config.quotedRun items).data ++ rest) none
        = items ++ Main.scanQuoted rest none := by
  intro items
  induction items with
  | nil => intro _ rest; simp [Config.quotedRun]
  | cons i is ih =>
    intro h rest
    have hino : ∀ c ∈ i.data, c ≠ dquote := fun c hc heq =>
      (h i (List.mem_cons_self i is)) (heq ▸ hc)
    have his : ∀ s ∈ is, dquote ∉ s.data := fun s hs =>
      h s (List.mem_cons_of_mem i hs)
    have hdq : ("\"" : String).data = [dquote] := by decide
    have hdata : (Config.quotedRun (i :: is)).data ++ rest
        = dquote :: (i.data
            ++ (dquote :: ((Config.quotedRun is).data ++ rest))) := by
      rw [quotedRun_cons, String.data_append, String.data_append,
        String.data_append, hdq]
      simp [List.append_assoc]
    rw [hdata, scanQuoted_open, scanQuoted_token i.data hino []
      ((Config.quotedRun is).data ++ rest), ih his rest]
    rfl

/-! ### Claims -/

/-- C1: the dependency formatter of the binary (`config.rs` `Display for
Aur`, the one `main.rs` `pkgbuild` writes into the PKGBUILD) emits, for
mandatory `["a","b"]` and optional `[]`, the text `depends=("a""b"` —
no space between the quoted items and no closing parenthesis — while the
repository's `lib.rs` formatter emits exactly `depends=("a" "b")` as the
spec states. -/
theorem aur_display_unterminated_array :
    Config.Aur.display ⟨none, none, ["a", "b"], []⟩ = "depends=(\"a\"\"b\"" ∧
    Lib.Metadata.display ⟨["a", "b"], [], none⟩ = "depends=(\"a\" \"b\")" := by
  constructor <;> rfl

/-- C2 (counterexample): a repository URL beginning with neither forge
name is classified `Github` by the binary's classifier, not `Generic`;
the binary's `GitHost` type has no `Generic` variant at all. -/
theorem git_host_no_generic_counterexample :
    str_starts_with genericPkg.repository "https://github" = false ∧
    str_starts_with genericPkg.repository "https://gitlab" = false ∧
    genericPkg.git_host = Config.GitHost.Github := by
  refine ⟨by decide, by decide, by decide⟩

/-- C2 (amended): the binary's classifier tests only the `https://gitlab`
beginning — URLs beginning with `https://github` (which cannot also begin
with `https://gitlab`) and all other URLs classify as `Github`, URLs
beginning with `https://gitlab` as `Gitlab`. The unused library crate's
classifier is the three-way ordered test of the claim: `https://github`
first, then `https://gitlab`, else `Generic`. -/
theorem git_host_prefix_classification :
    ∀ (p : Config.Package) (q : Lib.Package),
      (str_starts_with p.repository "https://github" = true →
        p.git_host = Config.GitHost.Github) ∧
      (str_starts_with p.repository "https://gitlab" = true →
        p.git_host = Config.GitHost.Gitlab) ∧
      (str_starts_with p.repository "https://gitlab" = false →
        p.git_host = Config.GitHost.Github) ∧
      (str_starts_with q.repository "https://github" = true →
        q.git_host = Lib.GitHost.Github) ∧
      (str_starts_with q.repository "https://github" = false →
        str_starts_with q.repository "https://gitlab" = true →
        q.git_host = Lib.GitHost.Gitlab) ∧
      (str_starts_with q.repository "https://github" = false →
        str_starts_with q.repository "https://gitlab" = false →
        q.git_host = Lib.GitHost.Generic) := by
  intro p q
  refine ⟨?_, ?_, ?_, ?_, ?_, ?_⟩
  · intro h
    simp [Config.Package.git_host, github_gitlab_exclusive p.repository h]
  · intro h; simp [Config.Package.git_host, h]
  · intro h; simp [Config.Package.git_host, h]
  · intro h; simp [Lib.Package.git_host, h]
  · intro h1 h2; simp [Lib.Package.git_host, h1, h2]
  · intro h1 h2; simp [Lib.Package.git_host, h1, h2]

/-- C2 (witness): the classification at three concrete repositories. -/
theorem git_host_prefix_classification_witness :
    fooPkg.git_host = Config.GitHost.Github ∧
    gitlabPkg.git_host = Config.GitHost.Gitlab ∧
    genericLibPkg.git_host = Lib.GitHost.Generic :=
  ⟨(git_host_prefix_classification fooPkg genericLibPkg).1 (by decide),
   (git_host_prefix_classification gitlabPkg genericLibPkg).2.1 (by decide),
   (git_host_prefix_classification fooPkg genericLibPkg).2.2.2.2.2
     (by decide) (by decide)⟩

/-- C3: when the `aur` block is present, the resolved dependency lists are
its lists exactly — whatever they are, including empty — and the rendered
output does not depend on the legacy top-level lists at all. -/
theorem metadata_aur_overrides_legacy :
    ∀ (ld lo : List String) (a : Lib.AUR),
      (Lib.Metadata.mk ld lo (some a)).resolved = (a.depends, a.optdepends) ∧
      (Lib.Metadata.mk ld lo (some a)).display
        = (Lib.Metadata.mk [] [] (some a)).display :=
  fun _ _ _ => ⟨rfl, rfl⟩

/-- C4: `must_copy_license` reports "no copy needed" exactly for the 14
entries of the `LICENSES` allow-list, and `MIT` requires a copy. -/
theorem must_copy_license_iff_not_allowlisted :
    ∀ license : String,
      (Main.must_copy_license license = false ↔ license ∈ Config.LICENSES) ∧
      Config.LICENSES.length = 14 ∧
      Main.must_copy_license "MIT" = true := by
  intro license
  refine ⟨?_, by decide, by decide⟩
  simp [Main.must_copy_license]

/-- C5 (counterexample): for the spec's example package the produced
source URL is not the claimed string carrying the resolved version
`1.2.3`. -/
theorem foo_source_not_resolved_version :
    fooPkg.git_host = Config.GitHost.Github ∧
    (fooPkg.git_host).source none fooPkg ≠
      "https://github.com/u/foo/releases/download/v1.2.3/foo-1.2.3-x86_64.tar.gz" := by
  refine ⟨by decide, by decide⟩

/-- C5 (amended): the example package classifies as `Github` and its
source URL carries the literal `$pkgver` placeholder, not the resolved
version; the same string is the pipeline's effective source. -/
theorem foo_source_placeholder_url :
    fooPkg.git_host = Config.GitHost.Github ∧
    (fooPkg.git_host).source none fooPkg =
      "https://github.com/u/foo/releases/download/v$pkgver/foo-$pkgver-x86_64.tar.gz" ∧
    Main.effective_source none cfgPlain =
      "https://github.com/u/foo/releases/download/v$pkgver/foo-$pkgver-x86_64.tar.gz" := by
  refine ⟨by decide, by decide, by decide⟩

/-- C6: for every variant and package, the produced URL is the repository
followed by a middle segment, the package name and a tail segment; middle
and tail each carry the literal `$pkgver` placeholder, and the URL is
independent of the package's version field. -/
theorem source_template_substitution :
    ∀ (host : Config.GitHost) (pkg : Config.Package) (v1 v2 : String),
      Config.GitHost.source host none (set_version pkg v1)
        = Config.GitHost.source host none (set_version pkg v2) ∧
      ∃ mid tail,
        Config.GitHost.source host none pkg
          = pkg.repository ++ mid ++ pkg.name ++ tail ∧
        (∃ a b, mid = a ++ "$pkgver" ++ b) ∧
        (∃ c d, tail = c ++ "$pkgver" ++ d) := by
  intro host pkg v1 v2
  cases host with
  | Github =>
    exact ⟨rfl, "/releases/download/v$pkgver/", "-$pkgver-x86_64.tar.gz",
      rfl, ⟨"/releases/download/v", "/", by decide⟩,
      ⟨"-", "-x86_64.tar.gz", by decide⟩⟩
  | Gitlab =>
    exact ⟨rfl, "/-/archive/v$pkgver/", "-$pkgver-x86_64.tar.gz",
      rfl, ⟨"/-/archive/v", "/", by decide⟩,
      ⟨"-", "-x86_64.tar.gz", by decide⟩⟩

/-- C7 (counterexample): with the environment override set AND an explicit
`metadata.aur.archive` in the manifest, the effective source is the
manifest's archive, not the environment value. -/
theorem manifest_archive_beats_env :
    Main.effective_source (some "https://env.example/archive.tar.gz")
      cfgWithArchive = "local-archive.tar.gz" ∧
    "local-archive.tar.gz" ≠ "https://env.example/archive.tar.gz" := by
  refine ⟨by decide, by decide⟩

/-- C7 (amended): the environment value is returned verbatim by
`GitHost::source` for every host variant (classification is bypassed),
and it is the effective archive source whenever the manifest declares no
explicit archive; a declared manifest archive takes precedence. -/
theorem env_override_bypasses_git_host :
    ∀ (cfg : Config.Config) (v : String),
      (∀ host : Config.GitHost, host.source (some v) cfg.package = v) ∧
      (cfg.package.metadata.aur.archive = none →
        Main.effective_source (some v) cfg = v) := by
  intro cfg v
  constructor
  · intro host; rfl
  · intro h
    rw [Main.effective_source, h]
    rfl

/-- C7 (witness): the environment value at a manifest with no archive. -/
theorem env_override_bypasses_git_host_witness :
    Main.effective_source (some "https://env.example/a.tar.gz") cfgPlain
      = "https://env.example/a.tar.gz" :=
  (env_override_bypasses_git_host cfgPlain "https://env.example/a.tar.gz").2
    rfl

/-- C8 (counterexample): the round trip fails when an item itself contains
a double quote. -/
theorem roundtrip_fails_on_quoted_item :
    Main.extractQuoted (Config.Aur.display ⟨none, none, ["a\""], ["x"]⟩)
      ≠ ["a\"", "x"] := by
  decide

/-- C8 (amended): for non-empty mandatory and optional lists whose items
contain no double quote, extracting the quoted tokens of the binary's
formatter output yields the mandatory list followed by the optional
list. -/
theorem quoted_token_roundtrip (a : Config.Aur)
    (hd : a.depends ≠ []) (ho : a.optdepends ≠ [])
    (hq : ∀ s ∈ a.depends ++ a.optdepends, dquote ∉ s.data) :
    Main.extractQuoted a.display = a.depends ++ a.optdepends := by
  obtain ⟨ar, nm, deps, opts⟩ := a
  cases deps with
  | nil => exact absurd rfl hd
  | cons d ds =>
  cases opts with
  | nil => exact absurd rfl ho
  | cons o os =>
  have hqd : ∀ s ∈ d :: ds, dquote ∉ s.data := fun s hs =>
    hq s (List.mem_append_left _ hs)
  have hqo : ∀ s ∈ o :: os, dquote ∉ s.data := fun s hs =>
    hq s (List.mem_append_right _ hs)
  show Main.scanQuoted (Config.Aur.display ⟨ar, nm, d :: ds, o :: os⟩).data
    none = (d :: ds) ++ (o :: os)
  have hdisp : Config.Aur.display ⟨ar, nm, d :: ds, o :: os⟩
      = ("depends=(" ++ Config.quotedRun (d :: ds) ++ "\n")
        ++ ("optdepends=(" ++ Config.quotedRun (o :: os)) := by
    simp [Config.Aur.display]
  rw [hdisp]
  rw [String.data_append, String.data_append, String.data_append,
    String.data_append, List.append_assoc, List.append_assoc]
  rw [scanQuoted_skip ("depends=(".data) (by decide)]
  rw [scanQuoted_quotedRun (d :: ds) hqd]
  rw [← List.append_assoc ("\n".data) ("optdepends=(".data)
    ((Config.quotedRun (o :: os)).data)]
  rw [scanQuoted_skip (("\n".data) ++ ("optdepends=(".data)) (by decide)]
  rw [show (Config.quotedRun (o :: os)).data
      = (Config.quotedRun (o :: os)).data ++ ([] : List Char) from
    (List.append_nil _).symm]
  rw [scanQuoted_quotedRun (o :: os) hqo []]
  simp [Main.scanQuoted]

/-- C8 (witness): the round trip at the concrete lists. -/
theorem quoted_token_roundtrip_witness :
    Main.extractQuoted (Config.Aur.display ⟨none, none, ["a", "b"], ["x"]⟩)
      = ["a", "b", "x"] :=
  quoted_token_roundtrip ⟨none, none, ["a", "b"], ["x"]⟩
    (by decide) (by decide) (by decide)

/-- C9: when the license is allow-listed the resolution returns `none`
without consulting the directory; otherwise the first entry whose name
begins with `LICENSE` is returned, and when no entry matches the outcome
is the fatal `MissingLicense` error. -/
theorem license_resolution_spec :
    ∀ (license : String) (entries : List Main.DirEntry),
      (license ∈ Config.LICENSES →
        Main.license_resolution license entries = Except.ok none) ∧
      (license ∉ Config.LICENSES →
        ((∀ e ∈ entries, Main.license_matches e = false) →
          Main.license_resolution license entries
            = Except.error Main.Error.MissingLicense) ∧
        (∀ e, entries.find? Main.license_matches = some e →
          Main.license_resolution license entries = Except.ok (some e) ∧
          Main.license_matches e = true)) := by
  intro license entries
  constructor
  · intro hmem
    have hmc : Main.must_copy_license license = false := by
      simp [Main.must_copy_license, hmem]
    simp [Main.license_resolution, hmc]
  · intro hmem
    have hmc : Main.must_copy_license license = true := by
      simp [Main.must_copy_license, hmem]
    constructor
    · intro hnone
      have hfind : entries.find? Main.license_matches = none := by
        rw [List.find?_eq_none]
        intro e he
        simp [hnone e he]
      simp [Main.license_resolution, hmc, Main.license_file, hfind,
        Except.map]
    · intro e he
      refine ⟨?_, List.find?_some he⟩
      simp [Main.license_resolution, hmc, Main.license_file, he, Except.map]

/-- C9 (witness): the three outcomes at concrete inputs. -/
theorem license_resolution_witness :
    Main.license_resolution "Apache-2.0" [] = Except.ok none ∧
    Main.license_resolution "MIT" []
      = Except.error Main.Error.MissingLicense ∧
    Main.license_resolution "MIT" [⟨some "LICENSE-MIT"⟩]
      = Except.ok (some ⟨some "LICENSE-MIT"⟩) :=
  ⟨(license_resolution_spec "Apache-2.0" []).1 (by decide),
   ((license_resolution_spec "MIT" []).2 (by decide)).1 (by decide),
   (((license_resolution_spec "MIT" [⟨some "LICENSE-MIT"⟩]).2
     (by decide)).2 ⟨some "LICENSE-MIT"⟩ (by decide)).1⟩

/-- C10: the allow-list misspells the later LGPL-3.0 entry as
`LGBL-3.0-or-later`, so `LGPL-3.0-or-later` requires a bundled copy while
the other three LGPL identifiers do not. -/
theorem lgbl_typo_in_allowlist :
    Main.must_copy_license "LGPL-3.0-or-later" = true ∧
    "LGBL-3.0-or-later" ∈ Config.LICENSES ∧
    "LGPL-3.0-or-later" ∉ Config.LICENSES ∧
    Main.must_copy_license "LGPL-2.0-only" = false ∧
    Main.must_copy_license "LGPL-2.0-or-later" = false ∧
    Main.must_copy_license "LGPL-3.0-only" = false := by
  refine ⟨by decide, by decide, by decide, by decide, by decide, by decide⟩
